import Mathlib

/-!
Verification of the data-normalization and aggregation pipeline of the
parks dashboard (`assignment3.py`).

The pipeline is embedded shallowly:
* pandas cells are modelled by `RawCell`; `num q` covers numeric cells and
  numeric strings (which `pd.to_numeric` parses), `str s` covers
  non-numeric strings (which `errors="coerce"` turns into NaN),
  `missing` covers NaN/blank cells;
* floating-point arithmetic is modelled over `ℚ`; Python `round(x, k)`
  is modelled by rounding to the nearest multiple of `10 ^ (-k)`;
* the tabular pipeline works on explicit lists of rows.
-/

/-- A raw cell of the loaded CSV table, as seen by pandas. -/
inductive RawCell where
  | missing : RawCell
  | str : String → RawCell
  | num : ℚ → RawCell
deriving DecidableEq, Repr

/-- Does `pat` occur at the very start of `l`? (Helper for Python's
substring test.) -/
def startsWithL : List Char → List Char → Bool
  | [], _ => true
  | _ :: _, [] => false
  | p :: ps, c :: cs => p = c && startsWithL ps cs

/-- Does `pat` occur contiguously anywhere in `l`? -/
def hasSubL (pat : List Char) : List Char → Bool
  | [] => startsWithL pat []
  | c :: cs => startsWithL pat (c :: cs) || hasSubL pat cs

/-- Python substring containment `pat in s`. -/
def containsSub (s pat : String) : Bool :=
  hasSubL pat.data s.data

/-- If `pat` is a prefix of `l`, return the remainder of `l`; else `none`. -/
def stripSubL : List Char → List Char → Option (List Char)
  | [], l => some l
  | _ :: _, [] => none
  | p :: ps, c :: cs => if p = c then stripSubL ps cs else none

/-- Left-to-right scan replacing every occurrence of `pat` by `rep`,
exactly as Python `str.replace`; the `Nat` argument is a structural bound
on the number of scan steps (each step consumes at least one character, so
a bound of the input's length is always enough). -/
def replaceFuel (pat rep : List Char) : Nat → List Char → List Char
  | _, [] => []
  | 0, l => l
  | n + 1, c :: cs =>
    match pat, stripSubL pat (c :: cs) with
    | _ :: _, some rest => rep ++ replaceFuel pat rep n rest
    | _, _ => c :: replaceFuel pat rep n cs

/-- Python `s.replace(pat, rep)` (for the non-empty patterns used by the
program; Python leaves `s` unchanged only in degenerate cases our patterns
never hit, and so does `replaceFuel` when `pat` is empty). -/
def pyReplace (s pat rep : String) : String :=
  String.mk (replaceFuel pat.data rep.data s.data.length s.data)

/-- Python `s.strip()`: drop leading and trailing whitespace. -/
def pyStrip (s : String) : String :=
  String.mk (((s.data.dropWhile Char.isWhitespace).reverse.dropWhile
    Char.isWhitespace).reverse)

/-- The suffix of `l` after the last occurrence of `sep`; this is exactly
Python `s.rsplit(sep, 1)[-1]` for a one-character separator. -/
def afterLastSep (sep : Char) (l : List Char) : List Char :=
  (l.reverse.takeWhile (fun c => c ≠ sep)).reverse

/-- Function `area_label` (assignment3.py:39-41): for a string, take the segment
after the last `/` (Python `u.rsplit("/", 1)[-1]`) and replace every `_`
by a space (a one-character-to-one-character replace is a `map`);
otherwise return the value unchanged. -/
def area_label (u : RawCell) : RawCell :=
  match u with
  | .str s =>
      .str (String.mk ((afterLastSep '/' s.data).map
        (fun c => if c = '_' then ' ' else c)))
  | c => c

/-- Function `level_from_area` (assignment3.py:46-50): substring classification of
an area label into Governorate / District / Other. -/
def level_from_area (c : RawCell) : String :=
  match c with
  | .str s =>
      if containsSub s "Governorate" then "Governorate"
      else if containsSub s "District" then "District"
      else "Other"
  | _ => "Other"

/-- Function `area_core` (assignment3.py:54-59): strip the administrative suffix
words from an area label and trim whitespace. -/
def area_core (c : RawCell) : RawCell :=
  match c with
  | .str s =>
      .str (pyStrip (pyReplace (pyReplace (pyReplace s "Governorate" "")
        "District, Lebanon" "") "District" ""))
  | c => c

/-- Coercion `pd.to_numeric` with coercing errors, on one cell: numeric values (and
numeric strings, folded into `RawCell.num`) pass through, everything else
becomes NaN (`none`). -/
def to_numeric (c : RawCell) : Option ℚ :=
  match c with
  | .missing => none
  | .str _ => none
  | .num q => some q

/-- Truncation toward zero, as performed by `.astype(int)` on a float. -/
def truncToZero (q : ℚ) : Int :=
  q.num.tdiv q.den

/-- One cell of `pd.to_numeric(col, errors="coerce").fillna(0).astype(int)`
(assignment3.py:63-66). -/
def normalize_flag (c : RawCell) : Int :=
  match to_numeric c with
  | none => 0
  | some q => truncToZero q

/-- Function `tri_label` (assignment3.py:69-72): Python's
`max({"Bad": b, "Acceptable": a, "Good": g}, key=vals.get)` iterates the
keys in insertion order and keeps the first key whose value is maximal;
the label is returned only if its value is positive, else `"Unknown"`. -/
def tri_label (b a g : Int) : String :=
  let p1 : String × Int := ("Bad", b)
  let p2 : String × Int := if a > p1.2 then ("Acceptable", a) else p1
  let p3 : String × Int := if g > p2.2 then ("Good", g) else p2
  if p3.2 > 0 then p3.1 else "Unknown"

/-- Python `round(q, k)` modelled over `ℚ`: round to `k` decimal places.
(Python uses round-half-to-even on floats; over `ℚ` we use Mathlib's
`round`, which differs only at exact ties — immaterial for every bound and
monotonicity property proved below.) -/
def roundTo (k : ℕ) (q : ℚ) : ℚ :=
  ((round (q * (10 : ℚ) ^ k) : ℤ) : ℚ) / ((10 : ℚ) ^ k)

/-- Helper `safe_pct` (assignment3.py:143-144): `0.0 if d == 0 else round(100.0 * n / d, 1)`. -/
def safe_pct (n d : ℚ) : ℚ :=
  if d = 0 then 0 else roundTo 1 (100 * n / d)

/-- The condition classifier as the specification words it: `Unknown` iff
all three flags are zero, otherwise the label of the maximum flag, ties
broken in the fixed priority order Bad, Acceptable, Good. -/
def classifySpec (b a g : Int) : String :=
  if b = 0 ∧ a = 0 ∧ g = 0 then "Unknown"
  else if b ≥ a ∧ b ≥ g then "Bad"
  else if a ≥ g then "Acceptable"
  else "Good"

/-! ### The table loader (assignment3.py:14-85) -/

/-- The header-renaming dictionary (assignment3.py:24-32), applied after
trimming. -/
def renameCol (c : String) : String :=
  if c = "State of public parks - bad" then "parks_bad"
  else if c = "State of public parks - acceptable" then "parks_acceptable"
  else if c = "State of public parks - good" then "parks_good"
  else if c = "State of the lighting network - bad" then "light_bad"
  else if c = "State of the lighting network - acceptable" then "light_acceptable"
  else if c = "State of the lighting network - good" then "light_good"
  else if c = "Existence of public parks - exists" then "parks_exist"
  else c

/-- A raw CSV table: a header row and one list of cells per data row. -/
structure RawTable where
  cols : List String
  rows : List (List RawCell)
deriving DecidableEq

/-- The cell of `row` under column `c` (missing column or short row reads
as NaN). -/
def getCell (cols : List String) (row : List RawCell) (c : String) : RawCell :=
  match cols.findIdx? (fun x => x = c) with
  | none => .missing
  | some i => row.getD i .missing

/-- One enriched record, as produced by `load_data`. A flag field is
`none` exactly when its column is absent from the table (the
normalization loop of assignment3.py:63-66 only touches present columns). -/
structure EnrichedRow where
  refArea : RawCell
  Town : RawCell
  Area : RawCell
  Level : String
  AreaShort : RawCell
  parks_bad : Option Int
  parks_acceptable : Option Int
  parks_good : Option Int
  light_bad : Option Int
  light_acceptable : Option Int
  light_good : Option Int
  parks_exist : Option Int
  park_condition : String
  lighting_condition : String
deriving DecidableEq

/-- The normalized value of flag column `c` for one row: `none` when the
column is absent, otherwise the coerced integer. -/
def flagOf (cols : List String) (row : List RawCell) (c : String) : Option Int :=
  if c ∈ cols then some (normalize_flag (getCell cols row c)) else none

/-- Enrichment of one row (assignment3.py:39-83): derive `Area`, `Level`,
`AreaShort`, the normalized flags, and the two condition labels.
`tri_label` is applied only when all three columns of the triple are
present; otherwise the condition is uniformly `"Unknown"`
(assignment3.py:74-83), and `row.get(col, 0)` is the flag value. -/
def enrichRow (cols : List String) (row : List RawCell) : EnrichedRow :=
  let ref := getCell cols row "refArea"
  let area := area_label ref
  { refArea := ref
    Town := getCell cols row "Town"
    Area := area
    Level := level_from_area area
    AreaShort := area_core area
    parks_bad := flagOf cols row "parks_bad"
    parks_acceptable := flagOf cols row "parks_acceptable"
    parks_good := flagOf cols row "parks_good"
    light_bad := flagOf cols row "light_bad"
    light_acceptable := flagOf cols row "light_acceptable"
    light_good := flagOf cols row "light_good"
    parks_exist := flagOf cols row "parks_exist"
    park_condition :=
      if "parks_bad" ∈ cols ∧ "parks_acceptable" ∈ cols ∧ "parks_good" ∈ cols then
        tri_label ((flagOf cols row "parks_bad").getD 0)
          ((flagOf cols row "parks_acceptable").getD 0)
          ((flagOf cols row "parks_good").getD 0)
      else "Unknown"
    lighting_condition :=
      if "light_bad" ∈ cols ∧ "light_acceptable" ∈ cols ∧ "light_good" ∈ cols then
        tri_label ((flagOf cols row "light_bad").getD 0)
          ((flagOf cols row "light_acceptable").getD 0)
          ((flagOf cols row "light_good").getD 0)
      else "Unknown" }

/-- Loader `load_data` (assignment3.py:14-85) on an already-read table: trim the
headers, apply the renaming, fail if `refArea` is absent, otherwise
enrich every row. -/
def load_data (t : RawTable) : Except String (List EnrichedRow) :=
  let cols := (t.cols.map pyStrip).map renameCol
  if "refArea" ∈ cols then Except.ok (t.rows.map (enrichRow cols))
  else Except.error "Column refArea is required to derive administrative areas."

/-! ### Chart 1: governorate ranking (assignment3.py:163-171) -/

/-- One row of `towns_map` as consumed by chart 1: the town name, its
inferred governorate (`none` models a NaN produced when the town has no
governorate-level rows), and its park-existence indicator. -/
structure TownRow where
  town : String
  gov : Option String
  parks_exist : Int
deriving DecidableEq

/-- The rows of one governorate group (`groupby("Governorate")` after
`dropna(subset=["Governorate"])`). -/
def govRows (rows : List TownRow) (g : String) : List TownRow :=
  rows.filter (fun r => r.gov = some g)

/-- The distinct governorate keys of the grouping. -/
def govKeys (rows : List TownRow) : List String :=
  (rows.filterMap TownRow.gov).dedup

/-- Aggregate `towns=("Town", "count")` for one governorate. -/
def govTownCount (rows : List TownRow) (g : String) : Nat :=
  (govRows rows g).length

/-- Aggregate `parks=("parks_exist", "sum")` for one governorate. -/
def govParkSum (rows : List TownRow) (g : String) : Int :=
  ((govRows rows g).map TownRow.parks_exist).sum

/-- Column `parks_pct = (parks / towns * 100).round(1)`
(assignment3.py:171). -/
def govParksPct (rows : List TownRow) (g : String) : ℚ :=
  roundTo 1 ((govParkSum rows g : ℚ) / (govTownCount rows g : ℚ) * 100)

/-! ### Chart 2: condition breakdown normalization (assignment3.py:208-216) -/

/-- One filtered record as consumed by chart 2: the grouping key `Area`
and the three park-condition flags. -/
structure CondRow where
  area : String
  parks_bad : Int
  parks_acceptable : Int
  parks_good : Int
deriving DecidableEq

/-- The grouped sum of one flag for one area (`fdf.groupby("Area")[c].sum()`). -/
def areaFlagSum (rows : List CondRow) (a : String) (f : CondRow → Int) : Int :=
  ((rows.filter (fun r => r.area = a)).map f).sum

/-- The total of the three condition counts of one area (the group sum
that `transform("sum")` attaches to each long-format row). -/
def areaTotal (rows : List CondRow) (a : String) : Int :=
  areaFlagSum rows a CondRow.parks_bad + areaFlagSum rows a CondRow.parks_acceptable
    + areaFlagSum rows a CondRow.parks_good

/-- The denominator after `.replace(0, 1)` (assignment3.py:215). -/
def areaDenom (rows : List CondRow) (a : String) : Int :=
  if areaTotal rows a = 0 then 1 else areaTotal rows a

/-- Column `value = (count / denom * 100).round(2)`
(assignment3.py:216), for the category extracted by `f`. -/
def areaSharePct (rows : List CondRow) (a : String) (f : CondRow → Int) : ℚ :=
  roundTo 2 ((areaFlagSum rows a f : ℚ) / (areaDenom rows a : ℚ) * 100)

/-! ### Geo aggregation (assignment3.py:91-120) -/

/-- One enriched row as consumed by `build_geo_mappings`: the town name
(`none` models NaN, dropped by `dropna(subset=["Town"])`), the
administrative level (which the parks aggregation deliberately ignores),
and the normalized `parks_exist` flag. -/
structure GeoRow where
  town : Option String
  level : String
  parks_exist : Int
deriving DecidableEq

/-- The rows of one town's group (rows of any level sharing the town
name, after dropping null town names). -/
def townRows (rows : List GeoRow) (t : String) : List GeoRow :=
  rows.filter (fun r => r.town = some t)

/-- Series `parks_exist` grouped by Town and maximised,
then `.map(...).fillna(0)` (assignment3.py:107-117): the group maximum,
or `0` for a town with no rows carrying a `parks_exist` value. -/
def town_parks_exist (rows : List GeoRow) (t : String) : Int :=
  match (townRows rows t).map GeoRow.parks_exist with
  | [] => 0
  | v :: vs => vs.foldl max v

/-- The number of occurrences of `v` in `l`, as a filter length. -/
def occ {α : Type} [DecidableEq α] (l : List α) (v : α) : Nat :=
  (l.filter (fun x => x = v)).length

/-- The largest occurrence count over the series (0 for an empty series). -/
def maxMult (l : List String) : Nat :=
  (l.map (fun v => occ l v)).foldr max 0

/-- Lexicographic comparison of character lists by code point — the
ordering Python and pandas use on strings. -/
def lexLe : List Char → List Char → Bool
  | [], _ => true
  | _ :: _, [] => false
  | a :: as, b :: bs =>
    if a.toNat < b.toNat then true
    else if b.toNat < a.toNat then false
    else lexLe as bs

/-- Lexicographic order on strings by code point. -/
def strLe (x y : String) : Bool :=
  lexLe x.data y.data

/-- Ordered insertion into a lexicographically sorted list. -/
def insertSorted (x : String) : List String → List String
  | [] => [x]
  | y :: ys => if strLe x y then x :: y :: ys else y :: insertSorted x ys

/-- Lexicographic insertion sort. -/
def sortStr (l : List String) : List String :=
  l.foldr insertSorted []

/-- Pandas `Series.mode()`: the most frequent values, in sorted order (pandas
returns the modes sorted ascending). -/
def seriesMode (l : List String) : List String :=
  sortStr ((l.dedup).filter (fun v => occ l v = maxMult l))

/-- The grouping aggregator of assignment3.py:97 and 103:
`s.mode().iat[0] if not s.mode().empty else s.iloc[0]` over one town's
group of `AreaShort` values ( `none` only for an empty group, which
`groupby` never produces). -/
def aggFirstMode (l : List String) : Option String :=
  match l with
  | [] => none
  | x :: _ => some ((seriesMode l).headD x)

/-! ### Categorical (treemap-style) breakdown

The treemap chart itself is not part of the source file under `src/`;
the definitions below are modelled from the specification (section 4.6,
"Categorical breakdown"). -/

/-- Modelled from the spec: the split mode selecting the categorical
dimension of the treemap breakdown. -/
inductive SplitMode where
  | parkExistence : SplitMode
  | parkCondition : SplitMode
  | lightingCondition : SplitMode
deriving DecidableEq

/-- Modelled from the spec: one filtered record as consumed by the
categorical breakdown: its display area and the fields the split modes
derive categories from (`parks_exist` is `none` when the record carries
no park-existence datum). -/
structure TreeRec where
  areaShort : String
  parks_exist : Option Int
  park_condition : String
  lighting_condition : String
deriving DecidableEq

/-- Modelled from the spec: the derived category of one record — Park
Existence splits into Parks exist / No parks / No data, the two condition
modes reuse the four-way condition label. -/
def treeCategory (m : SplitMode) (r : TreeRec) : String :=
  match m with
  | .parkExistence =>
      match r.parks_exist with
      | none => "No data"
      | some e => if 1 ≤ e then "Parks exist" else "No parks"
  | .parkCondition => r.park_condition
  | .lightingCondition => r.lighting_condition

/-- Modelled from the spec: the record count of one (AreaShort, category)
pair. -/
def pairCount (rows : List TreeRec) (m : SplitMode) (a c : String) : Nat :=
  (rows.filter (fun r => r.areaShort = a ∧ treeCategory m r = c)).length

/-- Modelled from the spec: the per-category total record count. -/
def catTotal (rows : List TreeRec) (m : SplitMode) (c : String) : Nat :=
  (rows.filter (fun r => treeCategory m r = c)).length

/-- Modelled from the spec: the per-category percentage, by the safe
division rule. -/
def catPct (rows : List TreeRec) (m : SplitMode) (c : String) : ℚ :=
  safe_pct (catTotal rows m c) rows.length

/-- The distinct category keys of the grouping. -/
def catKeys (rows : List TreeRec) (m : SplitMode) : List String :=
  (rows.map (treeCategory m)).dedup

/-- The distinct area keys of category `c` of the grouping. -/
def areaKeysOf (rows : List TreeRec) (m : SplitMode) (c : String) : List String :=
  ((rows.filter (fun r => treeCategory m r = c)).map TreeRec.areaShort).dedup

/-- One step of a left-to-right argmax scan keeping the current best. -/
def argmaxStep (f : String → Nat) (best : Option String) (a : String) : Option String :=
  match best with
  | none => some a
  | some b => if f a > f b then some a else some b

/-- The first key attaining the maximum of `f` over `l` (`none` iff `l`
is empty). -/
def argmaxList (f : String → Nat) (l : List String) : Option String :=
  l.foldl (argmaxStep f) none

/-- Modelled from the spec: the area with the largest record count in the
notable category `c`. -/
def topAreaFor (rows : List TreeRec) (m : SplitMode) (c : String) : Option String :=
  argmaxList (fun a => pairCount rows m a c) ((rows.map TreeRec.areaShort).dedup)

/-- A concrete table with a negative raw value in a flag column. -/
def negFlagTable : RawTable :=
  ⟨["refArea", "State of public parks - bad"],
    [[RawCell.str "x", RawCell.num (-1)]]⟩

/-- A concrete record list for the categorical breakdown. -/
def exTreeRows : List TreeRec :=
  [⟨"X", some 1, "Good", "Bad"⟩, ⟨"Y", some 1, "Bad", "Bad"⟩, ⟨"Y", some 0, "Good", "Bad"⟩]

/-! ## Helper lemmas -/

theorem roundTo_intCast (k : ℕ) (n : ℤ) : roundTo k ((n : ℚ)) = (n : ℚ) := by
  unfold roundTo
  have h : ((n : ℚ) * (10 : ℚ) ^ k) = (((n * 10 ^ k : ℤ) : ℚ)) := by push_cast; ring
  rw [h, round_intCast]
  have h10 : ((10 : ℚ) ^ k) ≠ 0 := by positivity
  push_cast
  field_simp

theorem roundTo_mono (k : ℕ) {x y : ℚ} (h : x ≤ y) : roundTo k x ≤ roundTo k y := by
  unfold roundTo
  have h10 : (0 : ℚ) < (10 : ℚ) ^ k := by positivity
  apply (div_le_div_iff_of_pos_right h10).mpr
  have hm : x * (10 : ℚ) ^ k ≤ y * (10 : ℚ) ^ k :=
    mul_le_mul_of_nonneg_right h (le_of_lt h10)
  have hr : round (x * (10 : ℚ) ^ k) ≤ round (y * (10 : ℚ) ^ k) := by
    rw [round_eq, round_eq]
    exact Int.floor_mono (by linarith)
  exact_mod_cast hr

theorem roundTo_bounds {k : ℕ} {q : ℚ} (h0 : 0 ≤ q) (h1 : q ≤ 100) :
    0 ≤ roundTo k q ∧ roundTo k q ≤ 100 := by
  have hz : roundTo k ((0 : ℚ)) = 0 := by
    have h := roundTo_intCast k 0
    simpa using h
  have hh : roundTo k ((100 : ℚ)) = 100 := by
    have h := roundTo_intCast k 100
    simpa using h
  constructor
  · rw [← hz]
    exact roundTo_mono k h0
  · rw [← hh]
    exact roundTo_mono k h1

theorem safe_pct_bounds {a b : ℚ} (ha : 0 ≤ a) (hab : a ≤ b) :
    0 ≤ safe_pct a b ∧ safe_pct a b ≤ 100 := by
  unfold safe_pct
  by_cases hb : b = 0
  · simp [hb]
  · rw [if_neg hb]
    have hbpos : 0 < b := lt_of_le_of_ne (le_trans ha hab) (Ne.symm hb)
    apply roundTo_bounds
    · positivity
    · rw [div_le_iff₀ hbpos]
      nlinarith

/-! ## Claim C4: safe division -/

/-- C4: `safe_pct(n, 0) = 0` for every n; `safe_pct(0, d) = 0` for every
d > 0; `safe_pct(·, d)` is monotonically increasing for fixed d > 0 — and,
being a total function on ℚ, `safe_pct` raises no division error. -/
theorem safe_pct_properties (n n1 n2 d : ℚ) (hd : 0 < d) (h12 : n1 ≤ n2) :
    safe_pct n 0 = 0 ∧ safe_pct 0 d = 0 ∧ safe_pct n1 d ≤ safe_pct n2 d := by
  refine ⟨by simp [safe_pct], ?_, ?_⟩
  · unfold safe_pct
    rw [if_neg (ne_of_gt hd)]
    have h : (100 : ℚ) * 0 / d = (((0 : ℤ)) : ℚ) := by norm_num
    rw [h, roundTo_intCast]
    norm_num
  · unfold safe_pct
    rw [if_neg (ne_of_gt hd), if_neg (ne_of_gt hd)]
    apply roundTo_mono
    apply (div_le_div_iff_of_pos_right hd).mpr
    linarith

/-- Witness for C4 at n = 7, n1 = 1, n2 = 3, d = 2. -/
theorem safe_pct_properties_witness :
    safe_pct 7 0 = 0 ∧ safe_pct 0 2 = 0 ∧ safe_pct 1 2 ≤ safe_pct 3 2 :=
  safe_pct_properties 7 1 3 2 (by norm_num) (by norm_num)

/-! ## Claim C1: the condition classifier -/

/-- C1: for non-negative flags, `tri_label` returns `"Unknown"` iff all
three flags are zero, and otherwise the label of the maximum flag with
ties broken in the fixed priority order Bad, Acceptable, Good — i.e. it
agrees with `classifySpec`, the classifier as the claim words it. -/
theorem tri_label_classifies (b a g : Int) (hb : 0 ≤ b) (ha : 0 ≤ a) (hg : 0 ≤ g) :
    tri_label b a g = classifySpec b a g
      ∧ (tri_label b a g = "Unknown" ↔ b = 0 ∧ a = 0 ∧ g = 0) := by
  have h : tri_label b a g = classifySpec b a g := by
    unfold tri_label classifySpec
    dsimp only
    split_ifs <;> first | rfl | omega
  refine ⟨h, ?_⟩
  rw [h]
  unfold classifySpec
  split_ifs with h1 h2 h3
  · simp [h1]
  · exact iff_of_false (by decide) h1
  · exact iff_of_false (by decide) h1
  · exact iff_of_false (by decide) h1

/-- Witness for C1 at the tie (2, 2, 1), broken toward Bad. -/
theorem tri_label_classifies_witness :
    (tri_label 2 2 1 = classifySpec 2 2 1
        ∧ (tri_label 2 2 1 = "Unknown" ↔ (2 : ℤ) = 0 ∧ (2 : ℤ) = 0 ∧ (1 : ℤ) = 0))
      ∧ tri_label 2 2 1 = "Bad" :=
  ⟨tri_label_classifies 2 2 1 (by norm_num) (by norm_num) (by norm_num), by decide⟩

/-! ## Claim C8: missing refArea aborts loading -/

/-- C8: when the required `refArea` column is absent (after header
trimming and renaming), `load_data` fails with the fatal error and no
enriched record set is produced. -/
theorem load_data_missing_refArea (t : RawTable)
    (h : "refArea" ∉ (t.cols.map pyStrip).map renameCol) :
    load_data t = Except.error "Column refArea is required to derive administrative areas."
      ∧ ∀ rs : List EnrichedRow, load_data t ≠ Except.ok rs := by
  unfold load_data
  rw [if_neg h]
  refine ⟨rfl, ?_⟩
  intro rs hc
  cases hc

/-- Witness for C8: a table whose only column is `Town`. -/
theorem load_data_missing_refArea_witness :
    load_data ⟨["Town"], []⟩
      = Except.error "Column refArea is required to derive administrative areas." :=
  (load_data_missing_refArea ⟨["Town"], []⟩ (by decide)).1

/-! ## Claim C2: flag normalization (corrected) -/

/-- Counterexample to C2 as stated: the pipeline maps the raw flag value
`-1` to the normalized flag `-1`, which is an integer but not `≥ 0`
(`pd.to_numeric(...).fillna(0).astype(int)` passes negatives through). -/
theorem flag_normalization_counterexample :
    ((load_data negFlagTable).toOption.getD []).map EnrichedRow.parks_bad = [some (-1)]
      ∧ ¬(0 ≤ (-1 : Int)) :=
  ⟨rfl, by norm_num⟩

/-- C2 amended: after normalization every flag field of an enriched
record whose column is present is an integer (`some _`, never null);
missing cells and parse failures map to 0; numeric values truncate toward
zero; and the result is non-negative whenever the raw numeric value is
non-negative (raw negatives pass through as negative integers). -/
theorem flag_normalization_amended (s : String) (q : ℚ) (hq : 0 ≤ q) :
    normalize_flag RawCell.missing = 0
      ∧ normalize_flag (RawCell.str s) = 0
      ∧ normalize_flag (RawCell.num q) = truncToZero q
      ∧ 0 ≤ normalize_flag (RawCell.num q)
      ∧ ∀ cols row, "parks_bad" ∈ cols →
          (enrichRow cols row).parks_bad
            = some (normalize_flag (getCell cols row "parks_bad")) := by
  refine ⟨rfl, rfl, rfl, ?_, ?_⟩
  · show 0 ≤ truncToZero q
    unfold truncToZero
    exact Int.tdiv_nonneg (Rat.num_nonneg.mpr hq) (by positivity)
  · intro cols row hc
    simp [enrichRow, flagOf, hc]

/-- Witness for C2 (amended) at the fractional value 3/2, which
truncates to 1. -/
theorem flag_normalization_amended_witness :
    (normalize_flag RawCell.missing = 0
        ∧ normalize_flag (RawCell.str "oops") = 0
        ∧ normalize_flag (RawCell.num (3 / 2)) = truncToZero (3 / 2)
        ∧ 0 ≤ normalize_flag (RawCell.num (3 / 2))
        ∧ ∀ cols row, "parks_bad" ∈ cols →
            (enrichRow cols row).parks_bad
              = some (normalize_flag (getCell cols row "parks_bad")))
      ∧ normalize_flag (RawCell.num (3 / 2)) = 1 := by
  refine ⟨flag_normalization_amended "oops" (3 / 2) (by norm_num), ?_⟩
  show truncToZero (3 / 2) = 1
  norm_num [truncToZero]
  decide

/-! ## Claim C9: zero-total condition normalization (corrected) -/

/-- Counterexample to C9 as stated: for a group with flags (-1, 1, 0) the
total is 0, yet the normalized Bad share is -100%, not 0% (the `replace(0, 1)`
denominator trick only yields 0% when every count is itself 0, which can
fail for a zero total once a normalized flag is negative). -/
theorem cond_norm_counterexample :
    areaTotal [⟨"A", -1, 1, 0⟩] "A" = 0
      ∧ areaSharePct [⟨"A", -1, 1, 0⟩] "A" CondRow.parks_bad = -100 := by
  refine ⟨rfl, ?_⟩
  have h1 : areaFlagSum [⟨"A", -1, 1, 0⟩] "A" CondRow.parks_bad = -1 := rfl
  have h2 : areaDenom [⟨"A", -1, 1, 0⟩] "A" = 1 := rfl
  unfold areaSharePct
  rw [h1, h2]
  have h3 : (((-1 : ℤ)) : ℚ) / (((1 : ℤ)) : ℚ) * 100 = (((-100 : ℤ)) : ℚ) := by norm_num
  rw [h3, roundTo_intCast]
  norm_num

/-- C9 amended: when all condition flags of the group are non-negative
(as produced from 0/1 survey data) and the group's total is 0, every
category's normalized share is 0% and no division error occurs (the
denominator is replaced by 1). -/
theorem cond_norm_amended (rows : List CondRow) (a : String)
    (hpos : ∀ r ∈ rows, 0 ≤ r.parks_bad ∧ 0 ≤ r.parks_acceptable ∧ 0 ≤ r.parks_good)
    (h0 : areaTotal rows a = 0) :
    areaSharePct rows a CondRow.parks_bad = 0
      ∧ areaSharePct rows a CondRow.parks_acceptable = 0
      ∧ areaSharePct rows a CondRow.parks_good = 0 := by
  have hb : 0 ≤ areaFlagSum rows a CondRow.parks_bad := by
    apply List.sum_nonneg
    intro x hx
    obtain ⟨r, hr, hrx⟩ := List.mem_map.1 hx
    exact hrx ▸ (hpos r (List.mem_filter.1 hr).1).1
  have ha : 0 ≤ areaFlagSum rows a CondRow.parks_acceptable := by
    apply List.sum_nonneg
    intro x hx
    obtain ⟨r, hr, hrx⟩ := List.mem_map.1 hx
    exact hrx ▸ (hpos r (List.mem_filter.1 hr).1).2.1
  have hg : 0 ≤ areaFlagSum rows a CondRow.parks_good := by
    apply List.sum_nonneg
    intro x hx
    obtain ⟨r, hr, hrx⟩ := List.mem_map.1 hx
    exact hrx ▸ (hpos r (List.mem_filter.1 hr).1).2.2
  unfold areaTotal at h0
  have hb0 : areaFlagSum rows a CondRow.parks_bad = 0 := by omega
  have ha0 : areaFlagSum rows a CondRow.parks_acceptable = 0 := by omega
  have hg0 : areaFlagSum rows a CondRow.parks_good = 0 := by omega
  have hz : ∀ f, areaFlagSum rows a f = 0 → areaSharePct rows a f = 0 := by
    intro f hf
    unfold areaSharePct
    rw [hf]
    have h : (((0 : ℤ)) : ℚ) / ((areaDenom rows a : ℤ) : ℚ) * 100 = (((0 : ℤ)) : ℚ) := by
      norm_num
    rw [h, roundTo_intCast]
    norm_num
  exact ⟨hz _ hb0, hz _ ha0, hz _ hg0⟩

/-- Witness for C9 (amended) at the all-zero group. -/
theorem cond_norm_amended_witness :
    areaSharePct [(⟨"A", 0, 0, 0⟩ : CondRow)] "A" CondRow.parks_bad = 0
      ∧ areaSharePct [(⟨"A", 0, 0, 0⟩ : CondRow)] "A" CondRow.parks_acceptable = 0
      ∧ areaSharePct [(⟨"A", 0, 0, 0⟩ : CondRow)] "A" CondRow.parks_good = 0 :=
  cond_norm_amended [⟨"A", 0, 0, 0⟩] "A" (by decide) rfl

/-! ## Counting lemmas for the grouped aggregations -/

theorem occ_cons {α : Type} [DecidableEq α] (x v : α) (xs : List α) :
    occ (x :: xs) v = (if x = v then 1 else 0) + occ xs v := by
  unfold occ
  by_cases h : x = v <;> simp [List.filter_cons, h, Nat.add_comm]

theorem occ_eq_zero_of_not_mem {α : Type} [DecidableEq α] {x : α} {l : List α}
    (h : x ∉ l) : occ l x = 0 := by
  unfold occ
  rw [List.filter_eq_nil_iff.mpr]
  · rfl
  · intro a ha hax
    exact h ((of_decide_eq_true hax) ▸ ha)

theorem occ_pos_of_mem {α : Type} [DecidableEq α] {x : α} {l : List α}
    (h : x ∈ l) : 1 ≤ occ l x := by
  induction l with
  | nil => cases h
  | cons y ys ih =>
    rcases List.mem_cons.1 h with rfl | hy
    · rw [occ_cons]
      simp
    · rw [occ_cons]
      have := ih hy
      omega

/-- The indicator sum over any list equals the occurrence count. -/
theorem sum_ind_eq_occ {α : Type} [DecidableEq α] (L : List α) (x : α) :
    (L.map (fun v => if v = x then (1 : ℕ) else 0)).sum = occ L x := by
  induction L with
  | nil => rfl
  | cons y ys ih =>
    rw [List.map_cons, List.sum_cons, ih, occ_cons]

/-- On a duplicate-free list containing `x`, the occurrence count of `x`
is exactly 1. -/
theorem occ_of_nodup {α : Type} [DecidableEq α] {L : List α} {x : α}
    (hnd : L.Nodup) (hx : x ∈ L) : occ L x = 1 := by
  induction L with
  | nil => cases hx
  | cons y ys ih =>
    obtain ⟨hy, hnd2⟩ := List.nodup_cons.1 hnd
    rcases List.mem_cons.1 hx with rfl | hmem
    · rw [occ_cons, if_pos rfl, occ_eq_zero_of_not_mem hy]
    · have hne : y ≠ x := fun hxy => hy (hxy ▸ hmem)
      rw [occ_cons, if_neg hne, ih hnd2 hmem]

/-- Summing the occurrence counts over the distinct values of a list
recovers the list's length. -/
theorem sum_occ_dedup {α : Type} [DecidableEq α] (l : List α) :
    (l.dedup.map (fun v => occ l v)).sum = l.length := by
  induction l with
  | nil => rfl
  | cons x xs ih =>
    have hocc : ∀ L : List α,
        (L.map (fun v => occ (x :: xs) v)).sum
          = (L.map (fun v => if x = v then (1 : ℕ) else 0)).sum
            + (L.map (fun v => occ xs v)).sum := by
      intro L
      rw [← List.sum_map_add]
      apply congrArg
      apply List.map_congr_left
      intro v _
      rw [occ_cons]
    by_cases hx : x ∈ xs
    · rw [List.dedup_cons_of_mem hx, hocc]
      have hind : ((xs.dedup).map (fun v => if x = v then (1 : ℕ) else 0)).sum = 1 := by
        have h1 : ∀ v, (if x = v then (1 : ℕ) else 0) = (if v = x then (1 : ℕ) else 0) := by
          intro v
          by_cases h : x = v
          · simp [h]
          · rw [if_neg h, if_neg (fun hv => h hv.symm)]
        calc ((xs.dedup).map (fun v => if x = v then (1 : ℕ) else 0)).sum
            = ((xs.dedup).map (fun v => if v = x then (1 : ℕ) else 0)).sum := by
              apply congrArg
              exact List.map_congr_left (fun v _ => h1 v)
          _ = occ xs.dedup x := sum_ind_eq_occ xs.dedup x
          _ = 1 := occ_of_nodup (List.nodup_dedup xs) (List.mem_dedup.2 hx)
      rw [hind, ih, List.length_cons, Nat.add_comm]
    · rw [List.dedup_cons_of_not_mem hx, List.map_cons, List.sum_cons]
      have h1 : occ (x :: xs) x = 1 := by
        rw [occ_cons, if_pos rfl, occ_eq_zero_of_not_mem hx]
      have h2 : ((xs.dedup).map (fun v => occ (x :: xs) v)).sum
          = ((xs.dedup).map (fun v => occ xs v)).sum := by
        apply congrArg
        apply List.map_congr_left
        intro v hv
        rw [occ_cons, if_neg, Nat.zero_add]
        intro hxv
        exact hx (hxv ▸ List.mem_dedup.1 hv)
      rw [h1, h2, ih, List.length_cons, Nat.add_comm]

/-- The length of a filter on the value of `f` equals an occurrence count
in the mapped list. -/
theorem length_filter_eq_occ_map {α β : Type} [DecidableEq β] (f : α → β) (l : List α)
    (b : β) : (l.filter (fun x => f x = b)).length = occ (l.map f) b := by
  induction l with
  | nil => rfl
  | cons x xs ih =>
    rw [List.map_cons, occ_cons]
    by_cases h : f x = b <;> simp [List.filter_cons, h, ih, Nat.add_comm]

/-! ## Claim C3: existence-ranking totals (corrected) -/

theorem govTownCount_eq_occ (rows : List TownRow) (g : String) :
    govTownCount rows g = occ (rows.filterMap TownRow.gov) g := by
  induction rows with
  | nil => rfl
  | cons r rs ih =>
    unfold govTownCount govRows at ih ⊢
    cases hr : r.gov with
    | none => simp [List.filter_cons, List.filterMap_cons, hr, ih]
    | some v =>
      by_cases hv : v = g
      · subst hv
        simp [List.filter_cons, List.filterMap_cons, hr, occ_cons, ih, Nat.add_comm]
      · simp [List.filter_cons, List.filterMap_cons, hr, occ_cons, hv, ih]

theorem length_filterMap_gov (rows : List TownRow) :
    (rows.filterMap TownRow.gov).length
      = (rows.filter (fun r => (r.gov).isSome)).length := by
  induction rows with
  | nil => rfl
  | cons r rs ih =>
    cases hr : r.gov <;> simp [List.filterMap_cons, List.filter_cons, hr, ih]

/-- Counterexample to C3 as stated: a town whose park-existence indicator
is 2 (possible, since the indicator is the maximum of normalized
`parks_exist` values, which dirty data can push past 1) gives its
governorate `parks_pct = 200 ∉ [0, 100]`. -/
theorem gov_pct_counterexample :
    govParksPct [⟨"T", some "G", 2⟩] "G" = 200
      ∧ ¬(govParksPct [⟨"T", some "G", 2⟩] "G" ≤ 100) := by
  have h : govParksPct [⟨"T", some "G", 2⟩] "G" = 200 := by
    have h1 : govParkSum [⟨"T", some "G", 2⟩] "G" = 2 := rfl
    have h2 : govTownCount [⟨"T", some "G", 2⟩] "G" = 1 := rfl
    unfold govParksPct
    rw [h1, h2]
    have h3 : (((2 : ℤ)) : ℚ) / (((1 : ℕ)) : ℚ) * 100 = (((200 : ℤ)) : ℚ) := by norm_num
    rw [h3, roundTo_intCast]
    norm_num
  rw [h]
  norm_num

/-- C3 amended: for any filter selection the per-governorate `towns`
counts sum to the number of filtered town rows with a non-empty
Governorate, and — provided every town's park-existence indicator lies in
{0, 1}, as 0/1 survey data produces — every governorate's `parks_pct`
lies in [0, 100]. -/
theorem gov_ranking_amended (rows : List TownRow) :
    ((govKeys rows).map (fun g => govTownCount rows g)).sum
        = (rows.filter (fun r => (r.gov).isSome)).length
      ∧ ((∀ r ∈ rows, 0 ≤ r.parks_exist ∧ r.parks_exist ≤ 1) →
          ∀ g : String, 0 ≤ govParksPct rows g ∧ govParksPct rows g ≤ 100) := by
  constructor
  · unfold govKeys
    have h : (rows.filterMap TownRow.gov).dedup.map (fun g => govTownCount rows g)
        = (rows.filterMap TownRow.gov).dedup.map
            (fun g => occ (rows.filterMap TownRow.gov) g) :=
      List.map_congr_left (fun g _ => govTownCount_eq_occ rows g)
    rw [h, sum_occ_dedup, length_filterMap_gov]
  · intro hind g
    have h0 : 0 ≤ govParkSum rows g := by
      apply List.sum_nonneg
      intro x hx
      obtain ⟨r, hr, hrx⟩ := List.mem_map.1 hx
      exact hrx ▸ (hind r (List.mem_filter.1 hr).1).1
    have h1 : govParkSum rows g ≤ (govTownCount rows g : ℤ) := by
      have hs := List.sum_le_card_nsmul ((govRows rows g).map TownRow.parks_exist) 1 ?_
      · unfold govParkSum govTownCount
        rwa [List.length_map, nsmul_eq_mul, mul_one] at hs
      · intro x hx
        obtain ⟨r, hr, hrx⟩ := List.mem_map.1 hx
        exact hrx ▸ (hind r (List.mem_filter.1 hr).1).2
    have hpq : (0 : ℚ) ≤ ((govParkSum rows g : ℤ) : ℚ) := by exact_mod_cast h0
    have htq : (0 : ℚ) ≤ ((govTownCount rows g : ℕ) : ℚ) := Nat.cast_nonneg _
    have h1q : ((govParkSum rows g : ℤ) : ℚ) ≤ ((govTownCount rows g : ℕ) : ℚ) := by
      exact_mod_cast h1
    unfold govParksPct
    apply roundTo_bounds
    · exact mul_nonneg (div_nonneg hpq htq) (by norm_num)
    · by_cases ht : ((govTownCount rows g : ℕ) : ℚ) = 0
      · rw [ht, div_zero, zero_mul]
        norm_num
      · have htpos : (0 : ℚ) < ((govTownCount rows g : ℕ) : ℚ) :=
          lt_of_le_of_ne htq (Ne.symm ht)
        rw [div_mul_eq_mul_div, div_le_iff₀ htpos]
        nlinarith

/-- Witness for C3 (amended) at a two-town table with indicators in
{0, 1}: the count-sum identity holds, and the inner {0, 1} proviso is
discharged concretely to obtain the percentage bounds. -/
theorem gov_ranking_amended_witness :
    (((govKeys [⟨"T", some "G", 1⟩, ⟨"U", none, 0⟩]).map
          (fun g => govTownCount [⟨"T", some "G", 1⟩, ⟨"U", none, 0⟩] g)).sum
        = ([⟨"T", some "G", 1⟩, ⟨"U", none, 0⟩].filter
            (fun r => (TownRow.gov r).isSome)).length
      ∧ ∀ g : String, 0 ≤ govParksPct [⟨"T", some "G", 1⟩, ⟨"U", none, 0⟩] g
          ∧ govParksPct [⟨"T", some "G", 1⟩, ⟨"U", none, 0⟩] g ≤ 100) :=
  ⟨(gov_ranking_amended [⟨"T", some "G", 1⟩, ⟨"U", none, 0⟩]).1,
    (gov_ranking_amended [⟨"T", some "G", 1⟩, ⟨"U", none, 0⟩]).2 (by decide)⟩

/-! ## Claim C7: per-town park-existence indicator -/

/-- A left fold of `max` dominates its seed and every element, and
returns either the seed or an element. -/
theorem foldl_max_spec (l : List Int) (v : Int) :
    v ≤ l.foldl max v ∧ (∀ x ∈ l, x ≤ l.foldl max v)
      ∧ (l.foldl max v = v ∨ l.foldl max v ∈ l) := by
  induction l generalizing v with
  | nil => exact ⟨le_rfl, by simp, Or.inl rfl⟩
  | cons y ys ih =>
    obtain ⟨h1, h2, h3⟩ := ih (max v y)
    rw [List.foldl_cons]
    refine ⟨le_trans (le_max_left v y) h1, ?_, ?_⟩
    · intro x hx
      rcases List.mem_cons.1 hx with rfl | hmem
      · exact le_trans (le_max_right v x) h1
      · exact h2 x hmem
    · rcases h3 with h | h
      · rcases max_choice v y with hm | hm
        · exact Or.inl (h.trans hm)
        · exact Or.inr (List.mem_cons.2 (Or.inl (h.trans hm)))
      · exact Or.inr (List.mem_cons.2 (Or.inr h))

/-- C7: a town's park-existence indicator is the maximum `parks_exist`
over all rows — of any administrative level — sharing that town name: it
dominates every such row, is attained by one of them when any exist, and
defaults to 0 for a town with no `parks_exist` values. -/
theorem town_parks_exist_is_max (rows : List GeoRow) (t : String) :
    (∀ r ∈ townRows rows t, r.parks_exist ≤ town_parks_exist rows t)
      ∧ (townRows rows t = [] → town_parks_exist rows t = 0)
      ∧ (townRows rows t ≠ [] →
          town_parks_exist rows t ∈ (townRows rows t).map GeoRow.parks_exist) := by
  unfold town_parks_exist
  cases hm : (townRows rows t).map GeoRow.parks_exist with
  | nil =>
    have hnil : townRows rows t = [] := List.map_eq_nil_iff.1 hm
    exact ⟨fun r hr => absurd (hnil ▸ hr) (List.not_mem_nil r), fun _ => rfl,
      fun hne => absurd hnil hne⟩
  | cons v vs =>
    obtain ⟨h1, h2, h3⟩ := foldl_max_spec vs v
    refine ⟨?_, ?_, ?_⟩
    · intro r hr
      have hx : r.parks_exist ∈ (townRows rows t).map GeoRow.parks_exist :=
        List.mem_map.2 ⟨r, hr, rfl⟩
      rw [hm] at hx
      rcases List.mem_cons.1 hx with he | hmem
      · exact he ▸ h1
      · exact h2 _ hmem
    · intro hnil
      rw [hnil] at hm
      cases hm
    · intro _
      show List.foldl max v vs ∈ v :: vs
      rcases h3 with h | h
      · exact List.mem_cons.2 (Or.inl h)
      · exact List.mem_cons.2 (Or.inr h)

/-- Witness for C7 on a two-row town spanning two levels: the indicator
dominates the district row's value and equals the overall maximum 5. -/
theorem town_parks_exist_is_max_witness :
    (1 : ℤ) ≤ town_parks_exist
        [⟨some "T", "District", 1⟩, ⟨some "T", "Governorate", 5⟩, ⟨some "U", "Other", 9⟩] "T"
      ∧ town_parks_exist
          [⟨some "T", "District", 1⟩, ⟨some "T", "Governorate", 5⟩, ⟨some "U", "Other", 9⟩] "T"
        = 5 :=
  ⟨(town_parks_exist_is_max
      [⟨some "T", "District", 1⟩, ⟨some "T", "Governorate", 5⟩, ⟨some "U", "Other", 9⟩] "T").1
      ⟨some "T", "District", 1⟩ (by decide), by decide⟩

/-! ## Claim C6: area-level classification -/

/-- C6: for every raw area-reference value, `level(label(·))` is one of
Governorate, District, Other; it is Other whenever the input is not a
string; and on the string label it classifies by substring containment
with "Governorate" taking precedence over "District". -/
theorem level_label_classification (v : RawCell) :
    (level_from_area (area_label v) = "Governorate"
        ∨ level_from_area (area_label v) = "District"
        ∨ level_from_area (area_label v) = "Other")
      ∧ ((∀ s : String, v ≠ RawCell.str s) → level_from_area (area_label v) = "Other")
      ∧ (∀ t : String, area_label v = RawCell.str t →
          (containsSub t "Governorate" = true →
              level_from_area (area_label v) = "Governorate")
            ∧ (containsSub t "Governorate" = false → containsSub t "District" = true →
                level_from_area (area_label v) = "District")
            ∧ (containsSub t "Governorate" = false → containsSub t "District" = false →
                level_from_area (area_label v) = "Other")) := by
  cases v with
  | missing =>
    refine ⟨Or.inr (Or.inr rfl), fun _ => rfl, ?_⟩
    intro t ht
    cases ht
  | num q =>
    refine ⟨Or.inr (Or.inr rfl), fun _ => rfl, ?_⟩
    intro t ht
    cases ht
  | str s =>
    refine ⟨?_, ?_, ?_⟩
    · simp only [area_label, level_from_area]
      split_ifs <;> simp
    · intro h
      exact absurd rfl (h s)
    · intro t ht
      have ht2 : level_from_area (area_label (RawCell.str s))
          = (if containsSub t "Governorate" then "Governorate"
              else if containsSub t "District" then "District" else "Other") := by
        rw [show area_label (RawCell.str s) = RawCell.str t from ht]
        rfl
      refine ⟨?_, ?_, ?_⟩
      · intro h1
        rw [ht2, if_pos h1]
      · intro h1 h2
        have h1n : ¬ containsSub t "Governorate" = true := by simp [h1]
        rw [ht2, if_neg h1n, if_pos h2]
      · intro h1 h2
        have h1n : ¬ containsSub t "Governorate" = true := by simp [h1]
        have h2n : ¬ containsSub t "District" = true := by simp [h2]
        rw [ht2, if_neg h1n, if_neg h2n]

/-- Witness for C6: a non-string cell classifies as Other, and a raw URL
ending in a governorate segment classifies as Governorate. -/
theorem level_label_classification_witness :
    level_from_area (area_label (RawCell.num 3)) = "Other"
      ∧ level_from_area (area_label (RawCell.str "x/Mount_Lebanon_Governorate"))
          = "Governorate" :=
  ⟨(level_label_classification (RawCell.num 3)).2.1 (fun s h => by cases h),
    ((level_label_classification (RawCell.str "x/Mount_Lebanon_Governorate")).2.2
      "Mount Lebanon Governorate" rfl).1 (by decide)⟩

/-! ## Claim C10: mode tie-break in the geo aggregator -/

theorem lexLe_refl (l : List Char) : lexLe l l = true := by
  induction l with
  | nil => rfl
  | cons c cs ih => simp [lexLe, ih]

theorem lexLe_total (x y : List Char) : lexLe x y = true ∨ lexLe y x = true := by
  induction x generalizing y with
  | nil => exact Or.inl rfl
  | cons a as ih =>
    cases y with
    | nil => exact Or.inr rfl
    | cons b bs =>
      by_cases h1 : a.toNat < b.toNat
      · left
        simp [lexLe, h1]
      · by_cases h2 : b.toNat < a.toNat
        · right
          simp [lexLe, h2]
        · rcases ih bs with h | h
          · left
            simp [lexLe, h1, h2, h]
          · right
            simp [lexLe, h1, h2, h]

theorem lexLe_trans {x y z : List Char} (h1 : lexLe x y = true)
    (h2 : lexLe y z = true) : lexLe x z = true := by
  induction x generalizing y z with
  | nil => rfl
  | cons a as ih =>
    cases y with
    | nil => simp [lexLe] at h1
    | cons b bs =>
      cases z with
      | nil => simp [lexLe] at h2
      | cons c cs =>
        simp only [lexLe] at h1 h2 ⊢
        by_cases hab : a.toNat < b.toNat
        · by_cases hbc : b.toNat < c.toNat
          · have hac : a.toNat < c.toNat := by omega
            simp [hac]
          · by_cases hcb : c.toNat < b.toNat
            · rw [if_neg hbc, if_pos hcb] at h2
              simp at h2
            · have hac : a.toNat < c.toNat := by omega
              simp [hac]
        · by_cases hba : b.toNat < a.toNat
          · rw [if_neg hab, if_pos hba] at h1
            simp at h1
          · rw [if_neg hab, if_neg hba] at h1
            by_cases hbc : b.toNat < c.toNat
            · have hac : a.toNat < c.toNat := by omega
              simp [hac]
            · by_cases hcb : c.toNat < b.toNat
              · rw [if_neg hbc, if_pos hcb] at h2
                simp at h2
              · rw [if_neg hbc, if_neg hcb] at h2
                have hnac : ¬ a.toNat < c.toNat := by omega
                have hnca : ¬ c.toNat < a.toNat := by omega
                rw [if_neg hnac, if_neg hnca]
                exact ih h1 h2

theorem strLe_refl (s : String) : strLe s s = true :=
  lexLe_refl s.data

theorem strLe_total (x y : String) : strLe x y = true ∨ strLe y x = true :=
  lexLe_total x.data y.data

theorem strLe_trans {x y z : String} (h1 : strLe x y = true)
    (h2 : strLe y z = true) : strLe x z = true :=
  lexLe_trans h1 h2

/-- The head of the insertion sort of a non-empty list is a least element
of the list. -/
theorem sortStr_min (l : List String) (hl : l ≠ []) :
    ∃ m, (sortStr l).head? = some m ∧ m ∈ l ∧ ∀ y ∈ l, strLe m y = true := by
  induction l with
  | nil => exact absurd rfl hl
  | cons x xs ih =>
    by_cases hxs : xs = []
    · subst hxs
      refine ⟨x, rfl, List.mem_singleton.2 rfl, ?_⟩
      intro y hy
      rw [List.mem_singleton.1 hy]
      exact strLe_refl x
    · obtain ⟨m, hm1, hm2, hm3⟩ := ih hxs
      have hfold : sortStr (x :: xs) = insertSorted x (sortStr xs) := rfl
      cases hs : sortStr xs with
      | nil =>
        rw [hs] at hm1
        cases hm1
      | cons y ys =>
        rw [hs] at hm1
        have hym : y = m := by simpa using hm1
        subst hym
        by_cases hxy : strLe x y = true
        · refine ⟨x, ?_, List.mem_cons_self x xs, ?_⟩
          · rw [hfold, hs]
            simp [insertSorted, hxy]
          · intro z hz
            rcases List.mem_cons.1 hz with rfl | hz2
            · exact strLe_refl z
            · exact strLe_trans hxy (hm3 z hz2)
        · have hyx : strLe y x = true := by
            rcases strLe_total x y with h | h
            · exact absurd h hxy
            · exact h
          refine ⟨y, ?_, List.mem_cons_of_mem x hm2, ?_⟩
          · rw [hfold, hs]
            simp [insertSorted, hxy]
          · intro z hz
            rcases List.mem_cons.1 hz with rfl | hz2
            · exact hyx
            · exact hm3 z hz2

/-- A right fold of `max` over naturals dominates every element and is
either 0 or attained. -/
theorem foldr_max_spec (L : List ℕ) :
    (∀ x ∈ L, x ≤ L.foldr max 0) ∧ (L.foldr max 0 = 0 ∨ L.foldr max 0 ∈ L) := by
  induction L with
  | nil => exact ⟨by simp, Or.inl rfl⟩
  | cons y ys ih =>
    obtain ⟨h1, h2⟩ := ih
    rw [List.foldr_cons]
    constructor
    · intro x hx
      rcases List.mem_cons.1 hx with rfl | hmem
      · exact le_max_left _ _
      · exact le_trans (h1 x hmem) (le_max_right _ _)
    · rcases max_choice y (ys.foldr max 0) with hm | hm
      · rw [hm]
        exact Or.inr (List.mem_cons_self _ _)
      · rw [hm]
        rcases h2 with h | h
        · exact Or.inl h
        · exact Or.inr (List.mem_cons_of_mem _ h)

/-- C10: on a non-empty group, the aggregator
`s.mode().iat[0] if not s.mode().empty else s.iloc[0]` returns a value of
maximal multiplicity that is lexicographically least among all tied
values of maximal multiplicity (pandas returns the modes sorted and the
first is taken) — not the first-seen value. -/
theorem mode_tiebreak_lexmin (l : List String) (hl : l ≠ []) :
    ∃ r, aggFirstMode l = some r ∧ occ l r = maxMult l
      ∧ ∀ v ∈ l, occ l v = maxMult l → strLe r v = true := by
  have hcands : ∃ v ∈ l.dedup, occ l v = maxMult l := by
    cases l with
    | nil => exact absurd rfl hl
    | cons x xs =>
      obtain ⟨hub, hmem⟩ := foldr_max_spec ((x :: xs).map (fun v => occ (x :: xs) v))
      have hmm : maxMult (x :: xs)
          = ((x :: xs).map (fun v => occ (x :: xs) v)).foldr max 0 := rfl
      rcases hmem with h0 | hm
      · have hx : occ (x :: xs) x ≤ ((x :: xs).map (fun v => occ (x :: xs) v)).foldr max 0 :=
          hub _ (List.mem_map.2 ⟨x, List.mem_cons_self x xs, rfl⟩)
        have hp : 1 ≤ occ (x :: xs) x := occ_pos_of_mem (List.mem_cons_self x xs)
        omega
      · obtain ⟨v, hv, hveq⟩ := List.mem_map.1 hm
        exact ⟨v, List.mem_dedup.2 hv, by rw [hmm, hveq]⟩
  obtain ⟨v0, hv0d, hv0⟩ := hcands
  have hcne : (l.dedup.filter (fun v => occ l v = maxMult l)) ≠ [] := by
    intro hnil
    have hmem : v0 ∈ l.dedup.filter (fun v => occ l v = maxMult l) :=
      List.mem_filter.2 ⟨hv0d, by simp [hv0]⟩
    rw [hnil] at hmem
    cases hmem
  obtain ⟨m, hm1, hm2, hm3⟩ := sortStr_min _ hcne
  cases l with
  | nil => exact absurd rfl hl
  | cons x xs =>
    refine ⟨m, ?_, ?_, ?_⟩
    · show some ((seriesMode (x :: xs)).headD x) = some m
      have hm1s : (seriesMode (x :: xs)).head? = some m := hm1
      cases hsm2 : seriesMode (x :: xs) with
      | nil =>
        rw [hsm2] at hm1s
        cases hm1s
      | cons a as =>
        rw [hsm2] at hm1s
        have ham : a = m := by simpa using hm1s
        simp [ham]
    · exact of_decide_eq_true (List.mem_filter.1 hm2).2
    · intro v hv hveq
      exact hm3 v (List.mem_filter.2 ⟨List.mem_dedup.2 hv, by simp [hveq]⟩)

/-- Witness for C10 on the tied group B, A: the aggregator returns the
lexicographically smaller A, not the first-seen B. -/
theorem mode_tiebreak_lexmin_witness :
    (∃ r, aggFirstMode ["B", "A"] = some r ∧ occ ["B", "A"] r = maxMult ["B", "A"]
        ∧ ∀ v ∈ (["B", "A"] : List String),
            occ ["B", "A"] v = maxMult ["B", "A"] → strLe r v = true)
      ∧ aggFirstMode ["B", "A"] = some "A" :=
  ⟨mode_tiebreak_lexmin ["B", "A"] (by decide), rfl⟩

/-! ## Claim C5: categorical (treemap-style) breakdown (modelled from the spec) -/

theorem pairCount_eq_occ (rows : List TreeRec) (m : SplitMode) (a c : String) :
    pairCount rows m a c
      = occ ((rows.filter (fun r => treeCategory m r = c)).map TreeRec.areaShort) a := by
  rw [← length_filter_eq_occ_map]
  unfold pairCount
  rw [List.filter_filter]
  apply congrArg List.length
  apply List.filter_congr
  intro r _
  by_cases h1 : r.areaShort = a <;> by_cases h2 : treeCategory m r = c <;> simp [h1, h2]

/-- A left-to-right argmax scan dominates its accumulator and every
scanned key. -/
theorem foldl_argmax_spec (f : String → Nat) (l : List String) :
    ∀ acc b, l.foldl (argmaxStep f) acc = some b →
      (∀ x, acc = some x → f x ≤ f b) ∧ ∀ a ∈ l, f a ≤ f b := by
  induction l with
  | nil =>
    intro acc b h
    rw [List.foldl_nil] at h
    refine ⟨?_, by simp⟩
    intro x hx
    rw [hx] at h
    injection h with h2
    rw [h2]
  | cons y ys ih =>
    intro acc b h
    rw [List.foldl_cons] at h
    obtain ⟨hacc, hmem⟩ := ih (argmaxStep f acc y) b h
    have hy : f y ≤ f b := by
      cases acc with
      | none => exact hacc y rfl
      | some xx =>
        by_cases hc : f y > f xx
        · exact hacc y (by simp [argmaxStep, hc])
        · have hxb : f xx ≤ f b := hacc xx (by simp [argmaxStep, hc])
          omega
    refine ⟨?_, ?_⟩
    · intro x hx
      subst hx
      by_cases hc : f y > f x
      · have hyb := hacc y (by simp [argmaxStep, hc])
        omega
      · exact hacc x (by simp [argmaxStep, hc])
    · intro a ha
      rcases List.mem_cons.1 ha with rfl | ha2
      · exact hy
      · exact hmem a ha2

/-- C5 (modelled from the spec, section 4.6): the categorical breakdown
splits each record into a category depending on the split mode (Park
Existence into Parks exist / No parks / No data; the condition modes into
the four-way condition label), counts records per (AreaShort, category)
pair — the per-category totals partition the filtered records and equal
the sum of that category's pair counts — exposes per-category safe
percentages lying in [0, 100], and exposes an area with the largest count
in the notable category. -/
theorem treemap_breakdown (rows : List TreeRec) (m : SplitMode) (c : String) :
    (∀ r : TreeRec,
        treeCategory SplitMode.parkExistence r
            ∈ (["Parks exist", "No parks", "No data"] : List String)
          ∧ treeCategory SplitMode.parkCondition r = r.park_condition
          ∧ treeCategory SplitMode.lightingCondition r = r.lighting_condition)
      ∧ ((catKeys rows m).map (fun k => catTotal rows m k)).sum = rows.length
      ∧ catTotal rows m c = ((areaKeysOf rows m c).map (fun a => pairCount rows m a c)).sum
      ∧ (0 ≤ catPct rows m c ∧ catPct rows m c ≤ 100)
      ∧ (∀ b, topAreaFor rows m c = some b →
          ∀ a : String, pairCount rows m a c ≤ pairCount rows m b c) := by
  refine ⟨?_, ?_, ?_, ?_, ?_⟩
  · intro r
    refine ⟨?_, rfl, rfl⟩
    cases hr : r.parks_exist with
    | none => simp [treeCategory, hr]
    | some e =>
      simp only [treeCategory, hr]
      split_ifs <;> simp
  · unfold catKeys
    have h : (rows.map (treeCategory m)).dedup.map (fun k => catTotal rows m k)
        = (rows.map (treeCategory m)).dedup.map
            (fun k => occ (rows.map (treeCategory m)) k) :=
      List.map_congr_left (fun k _ => length_filter_eq_occ_map (treeCategory m) rows k)
    rw [h, sum_occ_dedup, List.length_map]
  · unfold areaKeysOf
    have h : ((rows.filter (fun r => treeCategory m r = c)).map TreeRec.areaShort).dedup.map
          (fun a => pairCount rows m a c)
        = ((rows.filter (fun r => treeCategory m r = c)).map TreeRec.areaShort).dedup.map
            (fun a =>
              occ ((rows.filter (fun r => treeCategory m r = c)).map TreeRec.areaShort) a) :=
      List.map_congr_left (fun a _ => pairCount_eq_occ rows m a c)
    rw [h, sum_occ_dedup, List.length_map]
    rfl
  · unfold catPct
    apply safe_pct_bounds
    · exact Nat.cast_nonneg _
    · exact_mod_cast List.length_filter_le _ rows
  · intro b hb a
    unfold topAreaFor argmaxList at hb
    obtain ⟨_, hmem⟩ := foldl_argmax_spec (fun a => pairCount rows m a c)
      ((rows.map TreeRec.areaShort).dedup) none b hb
    by_cases ha : a ∈ (rows.map TreeRec.areaShort).dedup
    · exact hmem a ha
    · have h0 : pairCount rows m a c = 0 := by
        unfold pairCount
        rw [List.length_eq_zero]
        rw [List.filter_eq_nil_iff]
        intro r hr hp
        apply ha
        apply List.mem_dedup.2
        have h1 : r.areaShort = a := (of_decide_eq_true hp).1
        exact h1 ▸ List.mem_map.2 ⟨r, hr, rfl⟩
      rw [h0]
      exact Nat.zero_le _

/-- Witness for C5: on a concrete record list the exposed area with the
largest Parks exist count dominates the other area's pair count. -/
theorem treemap_breakdown_witness :
    pairCount exTreeRows SplitMode.parkExistence "Y" "Parks exist"
      ≤ pairCount exTreeRows SplitMode.parkExistence "X" "Parks exist" :=
  (treemap_breakdown exTreeRows SplitMode.parkExistence "Parks exist").2.2.2.2
    "X" (by decide) "Y"
